import Mathlib

/-!
Shallow embedding of the energy-consumption aggregation engine of
`energy-sync-py` (file `database.py`): the incremental entry point
`calculate_and_store_energy_consumption` and the windowed entry point
`backfill_energy_consumption`, together with the SQLite tables they touch
(`points`, `point_series`, `energy_consumption`).

Modelling conventions:
* Python strings are `List Char` (`Str`); the location-key sentinel logic
  (`floor_id or 'null'`) depends on actual string contents, so ids are kept
  as genuine character lists.
* Timestamp strings are `TStr`: `iso t` stands for a canonical
  `YYYY-MM-DD HH:MM:SS` UTC string denoting `t` seconds since an
  hour-aligned epoch (on such strings SQLite's lexicographic comparison
  coincides with the numeric order on `t`, and `parse_ts` succeeds), while
  `bad tag` stands for an unparseable string (`parse_ts` falls back to the
  current time).  The ordering between an unparseable string and a
  canonical one depends on the characters involved; the fixed choice made
  in `tsLe` is never relied upon by any theorem below.
* All times are UTC; `astimezone(timezone.utc)` is the identity here.
* The full Python dictionary key `f"{building}_{floor}_{space}_{ts}"` is
  modelled as the pair of the location part and the timestamp part.  This
  is faithful because the backfill timestamp part is a fixed-width
  19-character string, so the flat string determines the pair and vice
  versa.
* A floating-point watt reading is modelled as a rational number.
* SQL result-set ordering (`ORDER BY`) is not modelled: tables are lists
  in insertion order and every property proved is insensitive to the
  iteration order of the eligible rows.
-/

abbrev Str := List Char

/-- The underscore separator used by the Python f-string keys. -/
def und : Char := '_'

/-- The sentinel substituted for an absent (or empty) floor/space id:
Python's `floor_id or 'null'`. -/
def nullStr : Str := ['n', 'u', 'l', 'l']

/-- The unit name `'Watt'` selecting eligible points. -/
def wattUnit : Str := ['W', 'a', 't', 't']

/-- A timestamp string as stored in the database.  `iso t` is a canonical
`YYYY-MM-DD HH:MM:SS` UTC string denoting the instant `t` (seconds since an
hour-aligned epoch); `bad tag` is an unparseable string. -/
inductive TStr where
  | iso (t : Nat)
  | bad (tag : Nat)
deriving DecidableEq, Repr

/-- SQLite string comparison (`<=`) on timestamp strings.  On canonical
ISO strings the lexicographic order agrees with the chronological order;
the branches involving `bad` fix an arbitrary total behaviour that no
theorem depends on. -/
def tsLe : TStr → TStr → Bool
  | .iso a, .iso b => a ≤ b
  | .bad a, .bad b => a ≤ b
  | .bad _, .iso _ => true
  | .iso _, .bad _ => false

/-- `parse_ts` from `backfill_energy_consumption`: a parseable string
yields its instant, an unparseable one falls back to the current time
(`datetime.now(timezone.utc)`). -/
def parse_ts (now : Nat) : TStr → Nat
  | .iso t => t
  | .bad _ => now

/-- The 30-minute bucket truncation of `backfill_energy_consumption`:
`minute = 0 if dt.minute < 30 else 30; dt.replace(minute=minute, second=0,
microsecond=0)`, on seconds since an hour-aligned epoch. -/
def bucket30 (t : Nat) : Nat :=
  3600 * (t / 3600) + (if t % 3600 / 60 < 30 then 0 else 1800)

/-- Rational addition, spelled through `mkRat` so that concrete runs of
the aggregator reduce inside the kernel; `qadd_eq` proves it is `+`. -/
def qadd (a b : Rat) : Rat :=
  mkRat (a.num * b.den + b.num * a.den) (a.den * b.den)

/-- Division of a rational by a natural number, spelled through `mkRat`
so that concrete runs reduce inside the kernel; `qdivNat_eq` proves it is
`· / (n : ℚ)`. -/
def qdivNat (a : Rat) (n : Nat) : Rat :=
  mkRat a.num (a.den * n)

/-- Python's `x or 'null'`: `None` and the empty string both map to the
sentinel `'null'`. -/
def orNull : Option Str → Str
  | none => nullStr
  | some s => if s = [] then nullStr else s

/-- The location part of the aggregation keys:
`f"{building_id}_{floor_id or 'null'}_{space_id or 'null'}"`. -/
def locKey (b : Str) (f sp : Option Str) : Str :=
  b ++ und :: orNull f ++ und :: orNull sp

/-- A row of the `points` table (the columns the aggregator reads). -/
structure Point where
  id : Str
  building_id : Str
  floor_id : Option Str
  space_id : Option Str
  unit_name : Option Str
deriving DecidableEq, Repr

/-- A row of the `point_series` table (the columns the aggregator reads). -/
structure Sample where
  point_id : Str
  timestamp : TStr
  float64_value : Option Rat
  float32_value : Option Rat
deriving DecidableEq, Repr

/-- The deterministic id of an `energy_consumption` row: location part and
timestamp part of the flat Python key string. -/
abbrev EId := Str × TStr

/-- A row of the `energy_consumption` table.  `calculation_timestamp` is
the wall-clock instant recorded by the writing call. -/
structure ERec where
  id : EId
  building_id : Str
  floor_id : Option Str
  space_id : Option Str
  timestamp : TStr
  total_watts : Rat
  total_kwh : Rat
  calculation_timestamp : Nat
deriving DecidableEq, Repr

/-- The database state the aggregator touches. -/
structure DB where
  points : List Point
  samples : List Sample
  energy : List ERec
deriving DecidableEq, Repr

/-- A joined eligible row: `points JOIN point_series` restricted to the
selected columns.  `watt` is `COALESCE(float64_value, float32_value)`. -/
structure Row where
  building_id : Str
  floor_id : Option Str
  space_id : Option Str
  timestamp : TStr
  watt : Option Rat
deriving DecidableEq, Repr

/-- The optional-window test shared by the sample query and the rebuild
delete: when a bound is absent its conjunct is omitted (with both bounds
absent every row qualifies). -/
def inWindow (startT endT : Option TStr) (ts : TStr) : Bool :=
  (match startT with
   | none => true
   | some a => tsLe a ts) &&
  (match endT with
   | none => true
   | some b => tsLe ts b)

/-- The eligible-sample query of `backfill_energy_consumption`:
`points JOIN point_series ON p.id = ps.point_id` with
`p.unit_name = 'Watt'`, a non-null float value, and the optional window
bounds `ps.timestamp >= start_time` / `ps.timestamp <= end_time`.
Point ids are unique (primary key), so the join resolves each sample's
point by lookup. -/
def eligibleRows (db : DB) (startT endT : Option TStr) : List Row :=
  db.samples.filterMap fun s =>
    match db.points.find? (fun p => p.id == s.point_id) with
    | none => none
    | some p =>
        if p.unit_name == some wattUnit
            && (s.float64_value.isSome || s.float32_value.isSome)
            && inWindow startT endT s.timestamp then
          some ⟨p.building_id, p.floor_id, p.space_id, s.timestamp,
                s.float64_value <|> s.float32_value⟩
        else
          none

/-- The grouping key of a row in the backfill: the location part together
with the 30-minute bucket of the parsed timestamp. -/
def rowKey (now : Nat) (r : Row) : Str × Nat :=
  (locKey r.building_id r.floor_id r.space_id,
   bucket30 (parse_ts now r.timestamp))

/-- One accumulated `(sum, count)` group of the backfill. -/
structure BGroup where
  key : Str × Nat
  building_id : Str
  floor_id : Option Str
  space_id : Option Str
  sum_watts : Rat
  count : Nat
deriving DecidableEq, Repr

/-- One accumulation step of the backfill's bucket dictionary: a `None`
watt value is skipped (`continue`), an existing key has its running sum and
count updated, a fresh key appends a new group (dictionary insertion
order). -/
def accum (now : Nat) (acc : List BGroup) (r : Row) : List BGroup :=
  match r.watt with
  | none => acc
  | some w =>
      let k := rowKey now r
      if acc.any (fun g => g.key == k) then
        acc.map fun g =>
          if g.key == k then
            { g with sum_watts := qadd g.sum_watts w, count := g.count + 1 }
          else g
      else
        acc ++ [⟨k, r.building_id, r.floor_id, r.space_id, w, 1⟩]

/-- The bucket dictionary accumulated by `backfill_energy_consumption`
over the eligible rows. -/
def bucketsOf (db : DB) (startT endT : Option TStr) (now : Nat) :
    List BGroup :=
  (eligibleRows db startT endT).foldl (accum now) []

/-- The record written for one accumulated group:
`avg_watts = sum/count` (guarded by `count > 0`),
`total_kwh = (avg_watts / 1000.0) * 0.5`, deterministic id, bucket start
as the row timestamp, and the call's clock as `calculation_timestamp`. -/
def groupRec (now : Nat) (g : BGroup) : ERec :=
  let avg : Rat := if 0 < g.count then qdivNat g.sum_watts g.count else 0
  { id := (g.key.1, TStr.iso g.key.2)
    building_id := g.building_id
    floor_id := g.floor_id
    space_id := g.space_id
    timestamp := TStr.iso g.key.2
    total_watts := avg
    total_kwh := qdivNat (qdivNat avg 1000) 2
    calculation_timestamp := now }

/-- `INSERT OR REPLACE` keyed on the record id.

Modelled from the spec: the `energy_consumption` DDL is not part of the
sources here; per the specification the deterministic `id` is the key that
makes the upsert replace rather than duplicate, so the conflicting row (if
any) is removed and the new row appended. -/
def upsert1 (e : List ERec) (r : ERec) : List ERec :=
  e.filter (fun x => x.id != r.id) ++ [r]

/-- The write loop over the aggregated records. -/
def upsertAll (recs : List ERec) (e : List ERec) : List ERec :=
  recs.foldl upsert1 e

/-- The rebuild pre-delete: `DELETE FROM energy_consumption` with the same
optional window bounds on the `timestamp` column (no `WHERE` clause at all
when both bounds are absent). -/
def deleteWindow (startT endT : Option TStr) (e : List ERec) : List ERec :=
  e.filter fun r => !inWindow startT endT r.timestamp

/-- The outcome of a backfill call: the returned count, the final database
state, and the list of committed `energy_consumption` states in commit
order (the code issues `conn.commit()` once right after the rebuild delete
and once after the upsert loop). -/
structure BackfillOut where
  count : Nat
  db : DB
  commits : List (List ERec)
deriving DecidableEq, Repr

/-- The batch of records computed by one backfill call. -/
def backfillRecs (db : DB) (startT endT : Option TStr) (now : Nat) :
    List ERec :=
  (bucketsOf db startT endT now).map (groupRec now)

/-- `Database.backfill_energy_consumption(start_time, end_time, rebuild)`,
parameterised by the wall clock `now`.  An empty eligible-row set returns
0 before any write (the rebuild delete included); otherwise the rebuild
delete (if requested) is committed on its own, the bucket dictionary is
accumulated, and the per-group records are upserted and committed. -/
def backfill_energy_consumption (startT endT : Option TStr) (rebuild : Bool)
    (now : Nat) (db : DB) : BackfillOut :=
  if eligibleRows db startT endT = [] then
    ⟨0, db, []⟩
  else
    ⟨(backfillRecs db startT endT now).length,
     { db with energy := (upsertAll (backfillRecs db startT endT now)
         (if rebuild then deleteWindow startT endT db.energy else db.energy)) },
     (if rebuild then [deleteWindow startT endT db.energy] else [])
       ++ [upsertAll (backfillRecs db startT endT now)
            (if rebuild then deleteWindow startT endT db.energy else db.energy)]⟩

/-- The grouping key of the incremental entry point: the location part
together with the raw, unbucketed timestamp string. -/
def calcKey (r : Row) : Str × TStr :=
  (locKey r.building_id r.floor_id r.space_id, r.timestamp)

/-- One accumulated group of the incremental entry point: a running sum of
watt values per `(location, raw timestamp)` key. -/
structure CGroup where
  key : Str × TStr
  building_id : Str
  floor_id : Option Str
  space_id : Option Str
  total_watts : Rat
deriving DecidableEq, Repr

/-- One accumulation step of the incremental consumption map: the watt
value (`COALESCE(float64_value, float32_value, 0)`) is added to the entry
of the `(location, raw timestamp)` key, or a fresh entry is appended. -/
def calcAccum (acc : List CGroup) (r : Row) : List CGroup :=
  let w := r.watt.getD 0
  let k := calcKey r
  if acc.any (fun g => g.key == k) then
    acc.map fun g =>
      if g.key == k then { g with total_watts := qadd g.total_watts w } else g
  else
    acc ++ [⟨k, r.building_id, r.floor_id, r.space_id, w⟩]

/-- The consumption map accumulated by
`calculate_and_store_energy_consumption` (the eligible query has no window
bounds). -/
def calcBuckets (db : DB) : List CGroup :=
  (eligibleRows db none none).foldl calcAccum []

/-- The record written for one incremental group: the raw timestamp as the
row timestamp, the summed watts, and `total_kwh = total_watts / 1000`. -/
def calcRec (now : Nat) (g : CGroup) : ERec :=
  { id := g.key
    building_id := g.building_id
    floor_id := g.floor_id
    space_id := g.space_id
    timestamp := g.key.2
    total_watts := g.total_watts
    total_kwh := qdivNat g.total_watts 1000
    calculation_timestamp := now }

/-- The records written by one incremental run. -/
def calcRecs (db : DB) (now : Nat) : List ERec :=
  (calcBuckets db).map (calcRec now)

/-- `Database.calculate_and_store_energy_consumption()`, parameterised by
the wall clock `now`: returns the number of records written and the new
database state.  No rows are ever deleted; an empty eligible set returns 0
with no writes. -/
def calculate_and_store_energy_consumption (now : Nat) (db : DB) :
    Nat × DB :=
  if eligibleRows db none none = [] then
    (0, db)
  else
    ((calcRecs db now).length,
     { db with energy := upsertAll (calcRecs db now) db.energy })

/-- Whether a timestamp string is parseable (canonical). -/
def TStr.isIso : TStr → Bool
  | .iso _ => true
  | .bad _ => false

/-- Whether a row contributes to the backfill group of key `k`: a present
watt value and a matching grouping key. -/
def rowMatch (now : Nat) (k : Str × Nat) (r : Row) : Bool :=
  r.watt.isSome && (rowKey now r == k)

/-- The sum of the watt values contributed to the backfill group `k`. -/
def sumW (now : Nat) (rows : List Row) (k : Str × Nat) : Rat :=
  ((rows.filter (rowMatch now k)).map (fun r => r.watt.getD 0)).sum

/-- The number of rows contributing to the backfill group `k`. -/
def cntW (now : Nat) (rows : List Row) (k : Str × Nat) : Nat :=
  (rows.filter (rowMatch now k)).length

/-- The keys of a list of backfill groups. -/
def bKeys (gs : List BGroup) : List (Str × Nat) :=
  gs.map (·.key)

/-- Whether a row contributes to the incremental group of key `k`. -/
def cMatch (k : EId) (r : Row) : Bool :=
  calcKey r == k

/-- The sum of the watt values contributed to the incremental group `k`. -/
def cSumW (rows : List Row) (k : EId) : Rat :=
  ((rows.filter (cMatch k)).map (fun r => r.watt.getD 0)).sum

/-- The keys of a list of incremental groups. -/
def cKeys (gs : List CGroup) : List EId :=
  gs.map (·.key)

/-! Concrete inputs used by the counterexamples and witnesses. -/

/-- Building id `"B"`. -/
def bS : Str := ['B']

/-- Point id `"p1"`. -/
def p1S : Str := ['p', '1']

/-- Point id `"p2"`. -/
def p2S : Str := ['p', '2']

/-- A building-level Watt point. -/
def pt1 : Point := ⟨p1S, bS, none, none, some wattUnit⟩

/-- A Watt point on the same building whose floor id is the literal string
`'null'`. -/
def pt2 : Point := ⟨p2S, bS, some nullStr, none, some wattUnit⟩

/-- A second building-level Watt point. -/
def pt3 : Point := ⟨p2S, bS, none, none, some wattUnit⟩

/-- Three samples of `{100, 200, 300}` watts inside one 30-minute bucket
for one building-level point. -/
def db6 : DB :=
  ⟨[pt1],
   [⟨p1S, .iso 0, some 100, none⟩, ⟨p1S, .iso 60, some 200, none⟩,
    ⟨p1S, .iso 120, some 300, none⟩], []⟩

/-- The single group accumulated by the backfill over `db6`. -/
def g6 : BGroup := ⟨(locKey bS none none, 0), bS, none, none, 600, 3⟩

/-- A building-level sample and a floor `'null'` sample in the same bucket
of the same building. -/
def db3 : DB :=
  ⟨[pt1, pt2],
   [⟨p1S, .iso 0, some 100, none⟩, ⟨p2S, .iso 0, some 300, none⟩], []⟩

/-- Two points of one location with two samples at one instant and a third
sample at another instant. -/
def db2 : DB :=
  ⟨[pt1, pt3],
   [⟨p1S, .iso 0, some 100, none⟩, ⟨p2S, .iso 0, some 300, none⟩,
    ⟨p1S, .iso 60, some 50, none⟩], []⟩

/-- A pre-existing consumption record whose bucket start `1800` is the
right edge of the window `[0, 1800)`. -/
def oldRec : ERec := ⟨(['C'], .iso 1800), ['C'], none, none, .iso 1800, 5, 5, 0⟩

/-- One eligible sample at instant 0 next to the pre-existing `oldRec`. -/
def db4 : DB := ⟨[pt1], [⟨p1S, .iso 0, some 100, none⟩], [oldRec]⟩

/-- A database whose single eligible sample has an unparseable timestamp. -/
def db8 : DB := ⟨[pt1], [⟨p1S, .bad 3, some 100, none⟩], []⟩

/-- The joined row produced for the unparseable sample of `db8`. -/
def r8 : Row := ⟨bS, none, none, .bad 3, some 100⟩

/-- A consumption record as written by the incremental path (raw-timestamp
id). -/
def incRec : ERec :=
  ⟨(locKey bS none none, .iso 77), bS, none, none, .iso 77, 9, mkRat 9 1000, 1⟩

/-- `db6` with a pre-existing incremental record in the consumption
store. -/
def db10 : DB := ⟨[pt1], db6.samples, [incRec]⟩

/-- The empty database. -/
def dbEmpty : DB := ⟨[], [], []⟩

/-- A database with a sample for a non-Watt point and a pre-existing
consumption record: no eligible rows. -/
def dbNoWatt : DB :=
  ⟨[⟨p1S, bS, none, none, some ['C']⟩],
   [⟨p1S, .iso 0, some 100, none⟩], [oldRec]⟩

/-- A pre-existing consumption record far outside the rebuild window. -/
def farRec : ERec :=
  ⟨(['C'], .iso 7200), ['C'], none, none, .iso 7200, 5, 5, 0⟩

/-- One eligible in-window sample next to the far-outside `farRec`. -/
def db4b : DB := ⟨[pt1], [⟨p1S, .iso 60, some 100, none⟩], [farRec]⟩

/-- A joined row with a parseable timestamp, for bucket checks. -/
def r5 : Row := ⟨bS, none, none, .iso 44999, some 100⟩

/-- A joined building-level row. -/
def rC3a : Row := ⟨bS, none, none, .iso 0, some 100⟩

/-- A joined row of the same building on floor `"F1"`. -/
def rC3b : Row := ⟨bS, some ['F', '1'], none, .iso 0, some 50⟩

/-- A joined row of the same building and floor in space `"S1"`. -/
def rC3c : Row := ⟨bS, none, some ['S', '1'], .iso 0, some 50⟩

/-! The `mkRat`-spelled arithmetic is ordinary rational arithmetic. -/

/-- `qadd` is rational addition. -/
theorem qadd_eq (a b : Rat) : qadd a b = a + b := by
  unfold qadd
  rw [Rat.mkRat_eq_div]
  have ha : ((a.den : ℤ) : ℚ) ≠ 0 := by
    exact_mod_cast Rat.den_ne_zero a
  have hb : ((b.den : ℤ) : ℚ) ≠ 0 := by
    exact_mod_cast Rat.den_ne_zero b
  conv_rhs => rw [← Rat.num_div_den a, ← Rat.num_div_den b]
  push_cast
  rw [div_add_div _ _ (by exact_mod_cast ha) (by exact_mod_cast hb)]
  ring_nf

/-- `qdivNat` is rational division by the cast natural number. -/
theorem qdivNat_eq (a : Rat) (n : Nat) : qdivNat a n = a / (n : ℚ) := by
  unfold qdivNat
  rw [Rat.mkRat_eq_div]
  conv_rhs => rw [← Rat.num_div_den a]
  push_cast
  rw [div_div]

/-! Arithmetic facts about the 30-minute truncation. -/

/-- The minute-based truncation equals flooring to a multiple of 1800
seconds. -/
theorem bucket30_eq_floor (t : Nat) : bucket30 t = 1800 * (t / 1800) := by
  unfold bucket30
  rcases Nat.lt_or_ge (t % 3600 / 60) 30 with h | h
  · rw [if_pos h]
    omega
  · rw [if_neg (Nat.not_lt.mpr h)]
    omega

/-- Truncation never moves forward. -/
theorem bucket30_le (t : Nat) : bucket30 t ≤ t := by
  rw [bucket30_eq_floor]
  calc 1800 * (t / 1800) = t / 1800 * 1800 := Nat.mul_comm _ _
    _ ≤ t := Nat.div_mul_le_self t 1800

/-- Truncation is monotone. -/
theorem bucket30_mono {t u : Nat} (h : t ≤ u) : bucket30 t ≤ bucket30 u := by
  rw [bucket30_eq_floor, bucket30_eq_floor]
  exact Nat.mul_le_mul_left _ (Nat.div_le_div_right h)

/-! Filter helpers. -/

/-- A filter whose predicate holds on every member is the identity. -/
theorem filter_eq_self_of_mem {α : Type} (p : α → Bool) (l : List α)
    (h : ∀ a ∈ l, p a = true) : l.filter p = l := by
  induction l with
  | nil => rfl
  | cons a l ih =>
      rw [List.filter_cons, if_pos (h a (List.mem_cons_self a l))]
      rw [ih fun a ha => h a (List.mem_cons_of_mem _ ha)]

/-- Refiltering by an outer filter's predicate is the identity. -/
theorem filter_filter_self {α : Type} (p q : α → Bool) (l : List α) :
    ((l.filter p).filter q).filter p = (l.filter p).filter q := by
  refine filter_eq_self_of_mem _ _ fun a ha => ?_
  exact (List.mem_filter.mp ((List.mem_filter.mp ha).1)).2

/-- Filtering twice by one predicate equals filtering once. -/
theorem filter_idem {α : Type} (p : α → Bool) (l : List α) :
    (l.filter p).filter p = l.filter p := by
  refine filter_eq_self_of_mem _ _ fun a ha => ?_
  exact (List.mem_filter.mp ha).2

/-! The upsert loop: `INSERT OR REPLACE` keyed on the record id. -/

/-- A record with an id untouched by the whole batch survives it. -/
theorem mem_upsertAll (recs : List ERec) (e : List ERec) (r : ERec)
    (h : ∀ rec ∈ recs, rec.id ≠ r.id) (hm : r ∈ e) : r ∈ upsertAll recs e := by
  induction recs generalizing e with
  | nil => exact hm
  | cons a rest ih =>
      refine ih _ (fun rec hrec => h rec (List.mem_cons_of_mem _ hrec)) ?_
      unfold upsert1
      refine List.mem_append_left _ (List.mem_filter.mpr ⟨hm, ?_⟩)
      simp [bne_iff_ne]
      exact fun hcon => (h a (List.mem_cons_self _ _)) (hcon ▸ rfl)

/-- With pairwise-distinct batch ids, the upsert loop removes exactly the
rows whose id the batch rewrites and appends the batch in order. -/
theorem upsertAll_eq (recs : List ERec) (e : List ERec)
    (h : (recs.map ERec.id).Nodup) :
    upsertAll recs e
      = e.filter (fun x => decide (x.id ∉ recs.map ERec.id)) ++ recs := by
  induction recs generalizing e with
  | nil =>
      rw [upsertAll, List.foldl_nil, List.append_nil]
      refine (filter_eq_self_of_mem _ _ fun a _ => by simp).symm
  | cons a rest ih =>
      have hrest : (rest.map ERec.id).Nodup := (List.nodup_cons.mp h).2
      have hane : a.id ∉ rest.map ERec.id := by
        simpa using (List.nodup_cons.mp h).1
      have step : upsertAll (a :: rest) e = upsertAll rest (upsert1 e a) := rfl
      rw [step, ih _ hrest]
      unfold upsert1
      rw [List.filter_append]
      have hsingle : [a].filter (fun x => decide (x.id ∉ rest.map ERec.id)) = [a] := by
        rw [List.filter_cons, if_pos (decide_eq_true hane)]
        rfl
      rw [hsingle, List.filter_filter]
      have hpred : ∀ x : ERec,
          (decide (x.id ∉ rest.map ERec.id) && (x.id != a.id))
            = decide (x.id ∉ List.map ERec.id (a :: rest)) := by
        intro x
        by_cases h1 : x.id = a.id <;> by_cases h2 : x.id ∈ rest.map ERec.id <;>
          simp [h1, h2]
      rw [List.filter_congr fun x _ => hpred x]
      simp

/-! The bucket-dictionary accumulation of the backfill. -/

/-- Appending one row extends the contributed sum of a key by the row's
watt value when the row matches. -/
theorem sumW_append (now : Nat) (rows : List Row) (r : Row) (k : Str × Nat) :
    sumW now (rows ++ [r]) k
      = sumW now rows k + (if rowMatch now k r then r.watt.getD 0 else 0) := by
  unfold sumW
  rw [List.filter_append, List.map_append, List.sum_append]
  congr 1
  cases h : rowMatch now k r <;> simp [List.filter_cons, h]

/-- Appending one row extends the contributor count of a key by one when
the row matches. -/
theorem cntW_append (now : Nat) (rows : List Row) (r : Row) (k : Str × Nat) :
    cntW now (rows ++ [r]) k
      = cntW now rows k + (if rowMatch now k r then 1 else 0) := by
  unfold cntW
  rw [List.filter_append, List.length_append]
  congr 1
  cases h : rowMatch now k r <;> simp [List.filter_cons, h]

/-- A key with no contributors has a zero contributed sum. -/
theorem sumW_of_cntW_zero (now : Nat) (rows : List Row) (k : Str × Nat)
    (h : cntW now rows k = 0) : sumW now rows k = 0 := by
  unfold cntW at h
  unfold sumW
  rw [List.length_eq_zero.mp h]
  rfl

/-- The dictionary-membership test of the accumulation step. -/
theorem bGroup_any_iff (gs : List BGroup) (k : Str × Nat) :
    ((gs.any fun g => g.key == k) = true) ↔ k ∈ bKeys gs := by
  rw [List.any_eq_true]
  constructor
  · rintro ⟨g, hg, hk⟩
    exact beq_iff_eq.mp hk ▸ List.mem_map_of_mem (·.key) hg
  · intro hk
    obtain ⟨g, hg, hk⟩ := List.mem_map.mp hk
    exact ⟨g, hg, beq_iff_eq.mpr hk⟩

/-- The in-place update of an existing dictionary entry preserves the key
list. -/
theorem bKeys_map_update (gs : List BGroup) (k₀ : Str × Nat) (w : Rat) :
    bKeys (gs.map fun g =>
      if g.key == k₀ then
        { g with sum_watts := qadd g.sum_watts w, count := g.count + 1 }
      else g) = bKeys gs := by
  unfold bKeys
  induction gs with
  | nil => rfl
  | cons g gs ih =>
      rw [List.map_cons, List.map_cons, List.map_cons, ih]
      congr 1
      by_cases h : g.key == k₀
      · rw [if_pos h]
      · rw [if_neg h]

/-- Invariant of the backfill accumulation: every group holds exactly the
sum and count of its contributing rows (with a positive count), every key
with a contributor is present, and the keys are pairwise distinct. -/
theorem buckets_invariant (now : Nat) (rows : List Row) :
    (∀ g ∈ rows.foldl (accum now) [], g.sum_watts = sumW now rows g.key
       ∧ g.count = cntW now rows g.key ∧ 0 < g.count)
    ∧ (∀ k, k ∉ bKeys (rows.foldl (accum now) []) → cntW now rows k = 0)
    ∧ (bKeys (rows.foldl (accum now) [])).Nodup := by
  induction rows using List.reverseRecOn with
  | nil =>
      refine ⟨fun g hg => absurd hg (List.not_mem_nil g), fun k _ => rfl, List.nodup_nil⟩
  | append_singleton rows r ih =>
      obtain ⟨ih1, ih2, ih3⟩ := ih
      rw [List.foldl_append, List.foldl_cons, List.foldl_nil]
      set gs := rows.foldl (accum now) [] with hgs
      cases hw : r.watt with
      | none =>
          have hstep : accum now gs r = gs := by
            unfold accum
            rw [hw]
          have hnm : ∀ k, rowMatch now k r = false := by
            intro k
            unfold rowMatch
            rw [hw]
            rfl
          rw [hstep]
          refine ⟨fun g hg => ?_, fun k hk => ?_, ih3⟩
          · obtain ⟨h1, h2, h3⟩ := ih1 g hg
            refine ⟨?_, ?_, h3⟩
            · rw [sumW_append, hnm, if_neg (by simp), h1, add_zero]
            · rw [cntW_append, hnm, if_neg (by simp), h2, Nat.add_zero]
          · rw [cntW_append, hnm, if_neg (by simp), ih2 k hk, Nat.add_zero]
      | some w =>
          have hmatch : ∀ k, rowMatch now k r = (rowKey now r == k) := by
            intro k
            unfold rowMatch
            rw [hw]
            rfl
          have hgetD : r.watt.getD 0 = w := by
            rw [hw]
            rfl
          by_cases hmem : rowKey now r ∈ bKeys gs
          · have hany : (gs.any fun g => g.key == rowKey now r) = true :=
              (bGroup_any_iff gs _).mpr hmem
            have hstep : accum now gs r
                = gs.map fun g =>
                    if g.key == rowKey now r then
                      { g with sum_watts := qadd g.sum_watts w, count := g.count + 1 }
                    else g := by
              unfold accum
              rw [hw]
              simp only [hany, if_true]
            rw [hstep]
            refine ⟨fun g' hg' => ?_, fun k hk => ?_, ?_⟩
            · obtain ⟨g, hg, hdef⟩ := List.mem_map.mp hg'
              obtain ⟨h1, h2, h3⟩ := ih1 g hg
              by_cases hkey : g.key = rowKey now r
              · rw [if_pos (beq_iff_eq.mpr hkey)] at hdef
                subst hdef
                refine ⟨?_, ?_, Nat.succ_pos _⟩
                · show qadd g.sum_watts w = sumW now (rows ++ [r]) g.key
                  rw [qadd_eq, sumW_append, hmatch, hkey, if_pos (by simp), hgetD, h1,
                    hkey]
                · show g.count + 1 = cntW now (rows ++ [r]) g.key
                  rw [cntW_append, hmatch, hkey, if_pos (by simp), h2, hkey]
              · rw [if_neg (by simpa using hkey)] at hdef
                subst hdef
                have hne : ¬(rowKey now r = g.key) := fun h => hkey h.symm
                refine ⟨?_, ?_, h3⟩
                · rw [sumW_append, hmatch, if_neg (by simpa using hne), h1, add_zero]
                · rw [cntW_append, hmatch, if_neg (by simpa using hne), h2, Nat.add_zero]
            · rw [bKeys_map_update] at hk
              have hne : ¬(rowKey now r = k) := fun h => hk (h ▸ hmem)
              rw [cntW_append, hmatch, if_neg (by simpa using hne), ih2 k hk,
                Nat.add_zero]
            · rw [bKeys_map_update]
              exact ih3
          · have hany : (gs.any fun g => g.key == rowKey now r) = false := by
              rw [← Bool.not_eq_true]
              exact fun h => hmem ((bGroup_any_iff gs _).mp h)
            have hstep : accum now gs r
                = gs ++ [⟨rowKey now r, r.building_id, r.floor_id, r.space_id, w, 1⟩] := by
              unfold accum
              rw [hw]
              simp only [hany, Bool.false_eq_true, if_false]
            rw [hstep]
            have hkeys : bKeys (gs ++ [⟨rowKey now r, r.building_id, r.floor_id,
                r.space_id, w, 1⟩]) = bKeys gs ++ [rowKey now r] := by
              unfold bKeys
              rw [List.map_append]
              rfl
            refine ⟨fun g' hg' => ?_, fun k hk => ?_, ?_⟩
            · rcases List.mem_append.mp hg' with hg | hg
              · obtain ⟨h1, h2, h3⟩ := ih1 g' hg
                have hkey : ¬(rowKey now r = g'.key) := by
                  intro h
                  exact hmem (h ▸ List.mem_map_of_mem (·.key) hg)
                refine ⟨?_, ?_, h3⟩
                · rw [sumW_append, hmatch, if_neg (by simpa using hkey), h1, add_zero]
                · rw [cntW_append, hmatch, if_neg (by simpa using hkey), h2,
                    Nat.add_zero]
              · have hdef : g' = ⟨rowKey now r, r.building_id, r.floor_id,
                    r.space_id, w, 1⟩ := by simpa using hg
                subst hdef
                have hzero : cntW now rows (rowKey now r) = 0 := ih2 _ hmem
                refine ⟨?_, ?_, Nat.one_pos⟩
                · show w = sumW now (rows ++ [r]) (rowKey now r)
                  rw [sumW_append, hmatch, if_pos (by simp),
                    sumW_of_cntW_zero now rows _ hzero, hgetD, zero_add]
                · show 1 = cntW now (rows ++ [r]) (rowKey now r)
                  rw [cntW_append, hmatch, if_pos (by simp), hzero]
            · rw [hkeys, List.mem_append] at hk
              push_neg at hk
              obtain ⟨hk1, hk2⟩ := hk
              have hne : ¬(rowKey now r = k) := by
                have := hk2
                simp only [List.mem_singleton] at this
                exact fun h => this h.symm
              rw [cntW_append, hmatch, if_neg (by simpa using hne), ih2 k hk1,
                Nat.add_zero]
            · rw [hkeys, ← List.concat_eq_append]
              exact List.Nodup.concat hmem ih3

/-! The consumption-map accumulation of the incremental entry point. -/

/-- Appending one row extends the contributed sum of an incremental key by
the row's watt value when the row matches. -/
theorem cSumW_append (rows : List Row) (r : Row) (k : EId) :
    cSumW (rows ++ [r]) k
      = cSumW rows k + (if cMatch k r then r.watt.getD 0 else 0) := by
  unfold cSumW
  rw [List.filter_append, List.map_append, List.sum_append]
  congr 1
  cases h : cMatch k r <;> simp [List.filter_cons, h]

/-- The dictionary-membership test of the incremental accumulation step. -/
theorem cGroup_any_iff (gs : List CGroup) (k : EId) :
    ((gs.any fun g => g.key == k) = true) ↔ k ∈ cKeys gs := by
  rw [List.any_eq_true]
  constructor
  · rintro ⟨g, hg, hk⟩
    exact beq_iff_eq.mp hk ▸ List.mem_map_of_mem (·.key) hg
  · intro hk
    obtain ⟨g, hg, hk⟩ := List.mem_map.mp hk
    exact ⟨g, hg, beq_iff_eq.mpr hk⟩

/-- The in-place update of an incremental entry preserves the key list. -/
theorem cKeys_map_update (gs : List CGroup) (k₀ : EId) (w : Rat) :
    cKeys (gs.map fun g =>
      if g.key == k₀ then { g with total_watts := qadd g.total_watts w } else g)
      = cKeys gs := by
  unfold cKeys
  induction gs with
  | nil => rfl
  | cons g gs ih =>
      rw [List.map_cons, List.map_cons, List.map_cons, ih]
      congr 1
      by_cases h : g.key == k₀
      · rw [if_pos h]
      · rw [if_neg h]

/-- Invariant of the incremental accumulation: every group holds exactly
the summed watts of its contributing rows, every key with a contributor is
present, and the keys are pairwise distinct. -/
theorem calc_invariant (rows : List Row) :
    (∀ g ∈ rows.foldl calcAccum [], g.total_watts = cSumW rows g.key)
    ∧ (∀ k, k ∉ cKeys (rows.foldl calcAccum []) → rows.filter (cMatch k) = [])
    ∧ (cKeys (rows.foldl calcAccum [])).Nodup := by
  induction rows using List.reverseRecOn with
  | nil =>
      exact ⟨fun g hg => absurd hg (List.not_mem_nil g), fun k _ => rfl, List.nodup_nil⟩
  | append_singleton rows r ih =>
      obtain ⟨ih1, ih2, ih3⟩ := ih
      rw [List.foldl_append, List.foldl_cons, List.foldl_nil]
      set gs := rows.foldl calcAccum [] with hgs
      have hmatch : ∀ k, cMatch k r = (calcKey r == k) := fun k => rfl
      by_cases hmem : calcKey r ∈ cKeys gs
      · have hany : (gs.any fun g => g.key == calcKey r) = true :=
          (cGroup_any_iff gs _).mpr hmem
        have hstep : calcAccum gs r
            = gs.map fun g =>
                if g.key == calcKey r then
                  { g with total_watts := qadd g.total_watts (r.watt.getD 0) }
                else g := by
          unfold calcAccum
          simp only [hany, if_true]
        rw [hstep]
        refine ⟨fun g' hg' => ?_, fun k hk => ?_, ?_⟩
        · obtain ⟨g, hg, hdef⟩ := List.mem_map.mp hg'
          have h1 := ih1 g hg
          by_cases hkey : g.key = calcKey r
          · rw [if_pos (beq_iff_eq.mpr hkey)] at hdef
            subst hdef
            show qadd g.total_watts (r.watt.getD 0) = cSumW (rows ++ [r]) g.key
            rw [qadd_eq, cSumW_append, hmatch, hkey, if_pos (by simp), h1, hkey]
          · rw [if_neg (by simpa using hkey)] at hdef
            subst hdef
            have hne : ¬(calcKey r = g.key) := fun h => hkey h.symm
            rw [cSumW_append, hmatch, if_neg (by simpa using hne), h1, add_zero]
        · rw [cKeys_map_update] at hk
          have hne : ¬(calcKey r = k) := fun h => hk (h ▸ hmem)
          rw [List.filter_append, ih2 k hk, List.nil_append]
          simp [List.filter_cons, hmatch, hne]
        · rw [cKeys_map_update]
          exact ih3
      · have hany : (gs.any fun g => g.key == calcKey r) = false := by
          rw [← Bool.not_eq_true]
          exact fun h => hmem ((cGroup_any_iff gs _).mp h)
        have hstep : calcAccum gs r
            = gs ++ [⟨calcKey r, r.building_id, r.floor_id, r.space_id,
                r.watt.getD 0⟩] := by
          unfold calcAccum
          simp only [hany, Bool.false_eq_true, if_false]
        rw [hstep]
        have hkeys : cKeys (gs ++ [⟨calcKey r, r.building_id, r.floor_id,
            r.space_id, r.watt.getD 0⟩]) = cKeys gs ++ [calcKey r] := by
          unfold cKeys
          rw [List.map_append]
          rfl
        refine ⟨fun g' hg' => ?_, fun k hk => ?_, ?_⟩
        · rcases List.mem_append.mp hg' with hg | hg
          · have h1 := ih1 g' hg
            have hkey : ¬(calcKey r = g'.key) := by
              intro h
              exact hmem (h ▸ List.mem_map_of_mem (·.key) hg)
            rw [cSumW_append, hmatch, if_neg (by simpa using hkey), h1, add_zero]
          · have hdef : g' = ⟨calcKey r, r.building_id, r.floor_id, r.space_id,
                r.watt.getD 0⟩ := by simpa using hg
            subst hdef
            show r.watt.getD 0 = cSumW (rows ++ [r]) (calcKey r)
            have hflt : rows.filter (cMatch (calcKey r)) = [] := ih2 _ hmem
            have hzero : cSumW rows (calcKey r) = 0 := by
              unfold cSumW
              rw [hflt]
              rfl
            rw [cSumW_append, hmatch, if_pos (by simp), hzero, zero_add]
        · rw [hkeys, List.mem_append] at hk
          push_neg at hk
          obtain ⟨hk1, hk2⟩ := hk
          have hne : ¬(calcKey r = k) := by
            have := hk2
            simp only [List.mem_singleton] at this
            exact fun h => this h.symm
          rw [List.filter_append, ih2 k hk1, List.nil_append]
          simp [List.filter_cons, hmatch, hne]
        · rw [hkeys, ← List.concat_eq_append]
          exact List.Nodup.concat hmem ih3

/-! Facts about the eligible-row query. -/

/-- The eligible-row query reads only `points` and `point_series`; the
consumption store does not influence it. -/
theorem eligibleRows_set_energy (db : DB) (E : List ERec)
    (startT endT : Option TStr) :
    eligibleRows { db with energy := E } startT endT
      = eligibleRows db startT endT := rfl

/-- Every eligible row passed the query's window test. -/
theorem eligible_inWindow (db : DB) (startT endT : Option TStr) :
    ∀ r ∈ eligibleRows db startT endT, inWindow startT endT r.timestamp = true := by
  intro r hr
  obtain ⟨s, _, hs⟩ := List.mem_filterMap.mp hr
  split at hs
  · exact absurd hs (by simp)
  · split at hs
    · rename_i hcond
      obtain ⟨-, hwin⟩ := Bool.and_eq_true_iff.mp hcond
      cases hs
      exact hwin
    · exact absurd hs (by simp)

/-- The batch ids written by the backfill are the group keys, embedded as
record ids. -/
theorem groupRec_ids (now : Nat) (gs : List BGroup) :
    (gs.map (groupRec now)).map ERec.id
      = (bKeys gs).map (fun k => (k.1, TStr.iso k.2)) := by
  unfold bKeys
  rw [List.map_map, List.map_map]
  rfl

/-- Distinct group keys give distinct backfill record ids. -/
theorem groupRec_ids_nodup (now : Nat) (gs : List BGroup)
    (h : (bKeys gs).Nodup) : ((gs.map (groupRec now)).map ERec.id).Nodup := by
  rw [groupRec_ids]
  refine h.map ?_
  intro a b hab
  obtain ⟨h1, h2⟩ := Prod.mk.injEq .. ▸ hab
  exact Prod.ext h1 (TStr.iso.injEq .. ▸ h2)

/-- The batch ids written by the incremental path are exactly the group
keys. -/
theorem calcRec_ids (db : DB) (now : Nat) :
    (calcRecs db now).map ERec.id = cKeys (calcBuckets db) := by
  unfold calcRecs cKeys
  rw [List.map_map]
  rfl

/-- No two records of one backfill batch survive-filter each other: a
batch member never passes the not-in-batch filter. -/
theorem filter_not_in_batch (recs : List ERec) (q : ERec → Bool) :
    (recs.filter q).filter (fun x => decide (x.id ∉ recs.map ERec.id)) = [] := by
  refine List.filter_eq_nil_iff.mpr fun x hx => ?_
  have hmem : x ∈ recs := (List.mem_filter.mp hx).1
  simp [List.mem_map_of_mem ERec.id hmem]

/-! Unfolding equations for the two entry points. -/

/-- The rebuild delete is a window filter on the stored timestamp. -/
theorem deleteWindow_eq (startT endT : Option TStr) (e : List ERec) :
    deleteWindow startT endT e
      = e.filter (fun r => !inWindow startT endT r.timestamp) := rfl

/-- Backfill on an empty eligible set: count 0, untouched store, no
commit. -/
theorem backfill_empty_eq (startT endT : Option TStr) (rebuild : Bool)
    (now : Nat) (db : DB) (h : eligibleRows db startT endT = []) :
    backfill_energy_consumption startT endT rebuild now db = ⟨0, db, []⟩ := by
  unfold backfill_energy_consumption
  rw [if_pos h]

/-- Backfill on a nonempty eligible set with `rebuild=True`: committed
delete followed by the committed batch upsert. -/
theorem backfill_rebuild_eq (startT endT : Option TStr) (now : Nat) (db : DB)
    (h : ¬eligibleRows db startT endT = []) :
    backfill_energy_consumption startT endT true now db
      = ⟨(backfillRecs db startT endT now).length,
         { db with energy := (upsertAll (backfillRecs db startT endT now)
             (deleteWindow startT endT db.energy)) },
         [deleteWindow startT endT db.energy,
          upsertAll (backfillRecs db startT endT now)
            (deleteWindow startT endT db.energy)]⟩ := by
  unfold backfill_energy_consumption
  rw [if_neg h]
  rfl

/-- Backfill on a nonempty eligible set without rebuild: one committed
batch upsert. -/
theorem backfill_norebuild_eq (startT endT : Option TStr) (now : Nat) (db : DB)
    (h : ¬eligibleRows db startT endT = []) :
    backfill_energy_consumption startT endT false now db
      = ⟨(backfillRecs db startT endT now).length,
         { db with energy := (upsertAll (backfillRecs db startT endT now)
             db.energy) },
         [upsertAll (backfillRecs db startT endT now) db.energy]⟩ := by
  unfold backfill_energy_consumption
  rw [if_neg h]
  rfl

/-- A group in the accumulated dictionary presupposes a nonempty eligible
set. -/
theorem bucketsOf_mem_ne_nil (db : DB) (startT endT : Option TStr) (now : Nat)
    (g : BGroup) (h : g ∈ bucketsOf db startT endT now) :
    ¬eligibleRows db startT endT = [] := by
  intro h0
  unfold bucketsOf at h
  rw [h0] at h
  exact absurd h (List.not_mem_nil g)

/-! String facts about the `'_'`-separated location keys. -/

/-- Cancellation at the first separator: two underscore-free segments
followed by a separator determine each other. -/
theorem sep_cancel : ∀ (x y a b : Str), und ∉ x → und ∉ y →
    x ++ und :: a = y ++ und :: b → x = y ∧ a = b := by
  intro x
  induction x with
  | nil =>
      intro y a b _ hy h
      cases y with
      | nil => exact ⟨rfl, by simpa using h⟩
      | cons d y =>
          rw [List.nil_append, List.cons_append] at h
          obtain ⟨h1, -⟩ := List.cons.injEq .. ▸ h
          exact absurd (h1 ▸ List.mem_cons_self d y) hy
  | cons c x ih =>
      intro y a b hx hy h
      cases y with
      | nil =>
          rw [List.nil_append, List.cons_append] at h
          obtain ⟨h1, -⟩ := List.cons.injEq .. ▸ h
          exact absurd (h1 ▸ List.mem_cons_self c x) hx
      | cons d y =>
          rw [List.cons_append, List.cons_append] at h
          obtain ⟨h1, h2⟩ := List.cons.injEq .. ▸ h
          have hx' : und ∉ x := fun hc => hx (List.mem_cons_of_mem c hc)
          have hy' : und ∉ y := fun hc => hy (List.mem_cons_of_mem d hc)
          obtain ⟨h3, h4⟩ := ih y a b hx' hy' h2
          exact ⟨by rw [h1, h3], h4⟩

/-- The sentinel has no separator characters. -/
theorem und_not_mem_nullStr : und ∉ nullStr := by decide

/-- A building-level location key differs from a floor-level one whenever
the floor id is not the sentinel string, not empty, and free of the
separator character. -/
theorem locKey_floor_separation (b : Str) (f : Str) (sp₁ sp₂ : Option Str)
    (hnull : f ≠ nullStr) (hemp : f ≠ []) (hund : und ∉ f) :
    locKey b none sp₁ ≠ locKey b (some f) sp₂ := by
  intro h
  unfold locKey at h
  rw [List.append_assoc, List.append_assoc, List.cons_append, List.cons_append] at h
  have h2 := List.append_cancel_left h
  obtain ⟨-, h3⟩ := List.cons.injEq .. ▸ h2
  have h4 : orNull none ++ und :: orNull sp₁ = orNull (some f) ++ und :: orNull sp₂ := h3
  rw [show orNull none = nullStr from rfl, show orNull (some f) = f from if_neg hemp] at h4
  exact hnull ((sep_cancel nullStr f _ _ und_not_mem_nullStr hund h4).1).symm

/-- A space-absent location key differs from a space-bearing one with the
same building and floor whenever the space id is neither the sentinel
string nor empty. -/
theorem locKey_space_separation (b : Str) (fo : Option Str) (g : Str)
    (hnull : g ≠ nullStr) (hemp : g ≠ []) :
    locKey b fo none ≠ locKey b fo (some g) := by
  intro h
  unfold locKey at h
  rw [List.append_assoc, List.append_assoc, List.cons_append, List.cons_append] at h
  have h2 := List.append_cancel_left h
  obtain ⟨-, h3⟩ := List.cons.injEq .. ▸ h2
  have h4 := List.append_cancel_left h3
  obtain ⟨-, h5⟩ := List.cons.injEq .. ▸ h4
  have h6 : orNull none = orNull (some g) := h5
  rw [show orNull none = nullStr from rfl, show orNull (some g) = g from if_neg hemp] at h6
  exact hnull h6.symm

/-- The backfill batch depends only on `points` and `point_series`. -/
theorem backfillRecs_set_energy (db : DB) (E : List ERec)
    (startT endT : Option TStr) (now : Nat) :
    backfillRecs { db with energy := E } startT endT now
      = backfillRecs db startT endT now := rfl

/-- Re-running delete-then-upsert of one fixed batch over its own output
changes nothing. -/
theorem upsert_delete_stable (recs E : List ERec) (startT endT : Option TStr)
    (h : (recs.map ERec.id).Nodup) :
    upsertAll recs (deleteWindow startT endT
        (upsertAll recs (deleteWindow startT endT E)))
      = upsertAll recs (deleteWindow startT endT E) := by
  simp only [deleteWindow_eq]
  rw [upsertAll_eq recs (E.filter _) h]
  rw [List.filter_append, filter_filter_self]
  rw [upsertAll_eq recs _ h]
  rw [List.filter_append, filter_idem, filter_not_in_batch, List.append_nil]

/-- C1 (amended): for a fixed content of `points` and `point_series` and a
fixed window, running `backfill_energy_consumption(start, end,
rebuild=True)` a second time over the first run's output reproduces the
first run's database exactly — ids and every column — provided both calls
observe the same wall-clock reading (the `calculation_timestamp` column
records the clock and differs otherwise). -/
theorem backfill_rebuild_idempotent (db : DB) (startT endT : Option TStr)
    (now : Nat) :
    (backfill_energy_consumption startT endT true now
        (backfill_energy_consumption startT endT true now db).db).db
      = (backfill_energy_consumption startT endT true now db).db := by
  by_cases h : eligibleRows db startT endT = []
  · have h1 := backfill_empty_eq startT endT true now db h
    rw [h1]
    show (backfill_energy_consumption startT endT true now db).db = db
    rw [h1]
  · have hinv := buckets_invariant now (eligibleRows db startT endT)
    have hnodup : ((backfillRecs db startT endT now).map ERec.id).Nodup :=
      groupRec_ids_nodup now _ hinv.2.2
    have h1 := backfill_rebuild_eq startT endT now db h
    rw [h1]
    show (backfill_energy_consumption startT endT true now
        { db with energy := (upsertAll (backfillRecs db startT endT now)
            (deleteWindow startT endT db.energy)) }).db
      = { db with energy := (upsertAll (backfillRecs db startT endT now)
          (deleteWindow startT endT db.energy)) }
    have h' : ¬eligibleRows { db with energy := (upsertAll
        (backfillRecs db startT endT now)
        (deleteWindow startT endT db.energy)) } startT endT = [] := by
      rw [eligibleRows_set_energy]
      exact h
    rw [backfill_rebuild_eq startT endT now _ h']
    show ({ db with energy := (upsertAll (backfillRecs db startT endT now)
        (deleteWindow startT endT (upsertAll (backfillRecs db startT endT now)
          (deleteWindow startT endT db.energy)))) } : DB) = _
    rw [upsert_delete_stable _ db.energy startT endT hnodup]

/-- C1, claim as stated is false: with the clock advancing between the two
calls, the second rebuild rewrites `calculation_timestamp`, so the stored
rows differ between the runs. -/
theorem backfill_rebuild_idempotent_cex :
    (backfill_energy_consumption none none true 8
        (backfill_energy_consumption none none true 7 db6).db).db
      ≠ (backfill_energy_consumption none none true 7 db6).db := by
  intro h
  have h2 : (backfill_energy_consumption none none true 8
      (backfill_energy_consumption none none true 7 db6).db).db.energy.map
        ERec.calculation_timestamp
      = (backfill_energy_consumption none none true 7
          db6).db.energy.map ERec.calculation_timestamp := by
    rw [h]
  revert h2
  decide

/-- C9: with no eligible Watt samples in the window the backfill returns
0 and performs no writes and no deletes — even under `rebuild=True` the
pre-delete is never reached. -/
theorem backfill_no_rows_no_writes (db : DB) (startT endT : Option TStr)
    (rebuild : Bool) (now : Nat) (h : eligibleRows db startT endT = []) :
    (backfill_energy_consumption startT endT rebuild now db).count = 0
    ∧ (backfill_energy_consumption startT endT rebuild now db).db = db
    ∧ (backfill_energy_consumption startT endT rebuild now db).commits = [] := by
  rw [backfill_empty_eq startT endT rebuild now db h]
  exact ⟨rfl, rfl, rfl⟩

/-- C9 witness: a store with one non-Watt sample and one pre-existing
record is returned untouched with count 0. -/
theorem backfill_no_rows_no_writes_witness :
    eligibleRows dbNoWatt none none = []
    ∧ ((backfill_energy_consumption none none true 3 dbNoWatt).count = 0
       ∧ (backfill_energy_consumption none none true 3 dbNoWatt).db = dbNoWatt
       ∧ (backfill_energy_consumption none none true 3 dbNoWatt).commits = []) :=
  ⟨by decide, backfill_no_rows_no_writes dbNoWatt none none true 3 (by decide)⟩

/-- C10: with both window bounds omitted and at least one eligible sample,
the rebuild pre-delete runs without a `WHERE` clause: the first committed
state is the empty consumption store (every pre-existing row removed,
whichever path wrote it), and the final store holds exactly the freshly
computed batch. -/
theorem backfill_unbounded_rebuild_truncates (db : DB) (now : Nat)
    (h : ¬eligibleRows db none none = []) :
    (backfill_energy_consumption none none true now db).commits.head? = some []
    ∧ (backfill_energy_consumption none none true now db).db.energy
        = backfillRecs db none none now := by
  have hdel : deleteWindow none none db.energy = [] := by
    rw [deleteWindow_eq]
    refine List.filter_eq_nil_iff.mpr fun a _ => ?_
    simp [inWindow]
  rw [backfill_rebuild_eq none none now db h, hdel]
  refine ⟨rfl, ?_⟩
  show upsertAll (backfillRecs db none none now) [] = backfillRecs db none none now
  have hnodup : ((backfillRecs db none none now).map ERec.id).Nodup :=
    groupRec_ids_nodup now (bucketsOf db none none now)
      (buckets_invariant now (eligibleRows db none none)).2.2
  rw [upsertAll_eq _ _ hnodup]
  rfl

/-- C10 witness: with a record written by the incremental path present,
the unbounded rebuild's first commit is the empty store. -/
theorem backfill_unbounded_rebuild_truncates_witness :
    (¬eligibleRows db10 none none = [])
    ∧ incRec ∈ db10.energy
    ∧ ((backfill_energy_consumption none none true 4 db10).commits.head? = some []
       ∧ (backfill_energy_consumption none none true 4 db10).db.energy
           = backfillRecs db10 none none 4) := by
  refine ⟨by decide, by decide, ?_⟩
  exact backfill_unbounded_rebuild_truncates db10 4 (by decide)

/-- C5: the bucket assignment used by the backfill truncates a UTC
timestamp to its 30-minute boundary — minutes below 30 map to `:00`,
others to `:30`, seconds dropped — and a parseable sample is grouped under
exactly this bucket; in particular `12:29:59` lands in the `12:00:00`
bucket and `12:30:00` in the `12:30:00` bucket. -/
theorem bucket30_truncation :
    (∀ d h m s : Nat, h < 24 → m < 60 → s < 60 →
       bucket30 (86400 * d + 3600 * h + 60 * m + s)
         = 86400 * d + 3600 * h + (if m < 30 then 0 else 1800))
    ∧ (∀ (now : Nat) (r : Row) (t : Nat), r.timestamp = TStr.iso t →
       (rowKey now r).2 = bucket30 t)
    ∧ bucket30 (12 * 3600 + 29 * 60 + 59) = 12 * 3600
    ∧ bucket30 (12 * 3600 + 30 * 60) = 12 * 3600 + 30 * 60 := by
  refine ⟨fun d h m s hh hm hs => ?_, fun now r t ht => ?_, by decide, by decide⟩
  · unfold bucket30
    rcases Nat.lt_or_ge m 30 with h' | h'
    · rw [if_pos h', if_pos (by omega)]
      omega
    · rw [if_neg (by omega), if_neg (by omega)]
      omega
  · unfold rowKey
    rw [ht]
    rfl

/-- C5 witness: the truncation evaluated at `12:29:59` and at a concrete
joined row. -/
theorem bucket30_truncation_witness :
    bucket30 (86400 * 0 + 3600 * 12 + 60 * 29 + 59)
      = 86400 * 0 + 3600 * 12 + (if 29 < 30 then 0 else 1800)
    ∧ (rowKey 3 r5).2 = bucket30 44999 :=
  ⟨bucket30_truncation.1 0 12 29 59 (by decide) (by decide) (by decide),
   bucket30_truncation.2.1 3 r5 44999 (by decide)⟩

/-- C4 (amended): for an explicit window, the rebuild delete removes
exactly the rows whose stored timestamp lies in the closed interval
`[T1, T2]`, and every id the call writes carries a bucket inside
`[bucket30 T1, T2]`; hence (for parseable eligible samples) a well-formed
pre-existing record whose bucket start lies before `bucket30 T1` or after
`T2` survives the call untouched.  The half-open interval of the original
claim is wrong at both edges: a record at exactly `T2` is deleted, and a
record between `bucket30 T1` and `T1` can be overwritten. -/
theorem backfill_window_frame (db : DB) (t1 t2 : Nat) (rebuild : Bool)
    (now : Nat) (r : ERec) (loc : Str) (b : Nat)
    (hparse : ∀ rw ∈ eligibleRows db (some (.iso t1)) (some (.iso t2)),
      rw.timestamp.isIso = true)
    (hmem : r ∈ db.energy)
    (hid : r.id = (loc, TStr.iso b))
    (hts : r.timestamp = TStr.iso b)
    (hout : b < bucket30 t1 ∨ t2 < b) :
    r ∈ (backfill_energy_consumption (some (.iso t1)) (some (.iso t2))
        rebuild now db).db.energy := by
  by_cases h : eligibleRows db (some (.iso t1)) (some (.iso t2)) = []
  · rw [backfill_empty_eq _ _ _ _ _ h]
    exact hmem
  · have hinv := buckets_invariant now
      (eligibleRows db (some (.iso t1)) (some (.iso t2)))
    have hidne : ∀ rec ∈ backfillRecs db (some (.iso t1)) (some (.iso t2)) now,
        rec.id ≠ r.id := by
      intro rec hrec
      obtain ⟨g, hg, hdef⟩ := List.mem_map.mp hrec
      obtain ⟨-, hcnt, hpos⟩ := hinv.1 g hg
      have hlen : 0 < cntW now
          (eligibleRows db (some (.iso t1)) (some (.iso t2))) g.key := hcnt ▸ hpos
      have hne : (eligibleRows db (some (.iso t1))
          (some (.iso t2))).filter (rowMatch now g.key) ≠ [] := by
        intro hnil
        unfold cntW at hlen
        rw [hnil] at hlen
        exact absurd hlen (by simp)
      obtain ⟨rw0, hrw0⟩ := List.exists_mem_of_ne_nil _ hne
      obtain ⟨hrwmem, hrwmatch⟩ := List.mem_filter.mp hrw0
      obtain ⟨-, h2⟩ := Bool.and_eq_true_iff.mp hrwmatch
      have hkey : rowKey now rw0 = g.key := beq_iff_eq.mp h2
      have hiso := hparse rw0 hrwmem
      cases hrwts : rw0.timestamp with
      | bad tag =>
          rw [hrwts] at hiso
          exact absurd hiso (by simp [TStr.isIso])
      | iso t =>
          have hwin := eligible_inWindow db _ _ rw0 hrwmem
          rw [hrwts] at hwin
          unfold inWindow tsLe at hwin
          obtain ⟨hw1, hw2⟩ := Bool.and_eq_true_iff.mp hwin
          have ht1 : t1 ≤ t := by exact_mod_cast of_decide_eq_true hw1
          have ht2 : t ≤ t2 := by exact_mod_cast of_decide_eq_true hw2
          have hbt : g.key.2 = bucket30 t := by
            rw [← hkey]
            unfold rowKey
            rw [hrwts]
            rfl
          have hlow : bucket30 t1 ≤ g.key.2 := hbt ▸ bucket30_mono ht1
          have hhigh : g.key.2 ≤ t2 := hbt ▸ le_trans (bucket30_le t) ht2
          subst hdef
          intro hcontra
          have hids : (g.key.1, TStr.iso g.key.2) = (loc, TStr.iso b) := by
            rw [← hid]
            exact hcontra
          have hb2 : g.key.2 = b := by
            have := congrArg Prod.snd hids
            exact TStr.iso.injEq .. ▸ this
          rcases hout with hout | hout <;> omega
    have hkeep : r ∈ deleteWindow (some (.iso t1)) (some (.iso t2)) db.energy := by
      rw [deleteWindow_eq]
      refine List.mem_filter.mpr ⟨hmem, ?_⟩
      have hwin : inWindow (some (.iso t1)) (some (.iso t2)) r.timestamp = false := by
        rw [hts]
        unfold inWindow tsLe
        have hb1 := bucket30_le t1
        rcases hout with hout | hout
        · have : ¬t1 ≤ b := by omega
          simp [this]
        · have : ¬b ≤ t2 := by omega
          simp [this]
      rw [hwin]
      rfl
    cases rebuild with
    | false =>
        rw [backfill_norebuild_eq _ _ _ _ h]
        exact mem_upsertAll _ _ _ hidne hmem
    | true =>
        rw [backfill_rebuild_eq _ _ _ _ h]
        exact mem_upsertAll _ _ _ hidne hkeep

/-- C4 witness: a record bucketed at `7200`, outside the rebuild window
`[0, 1800]`, survives the rebuild untouched. -/
theorem backfill_window_frame_witness :
    (∀ rw ∈ eligibleRows db4b (some (.iso 0)) (some (.iso 1800)),
      rw.timestamp.isIso = true)
    ∧ farRec ∈ db4b.energy
    ∧ farRec ∈ (backfill_energy_consumption (some (.iso 0)) (some (.iso 1800))
        true 9 db4b).db.energy := by
  refine ⟨by decide, by decide, ?_⟩
  exact backfill_window_frame db4b 0 1800 true 9 farRec ['C'] 7200
    (by decide) (by decide) (by decide) (by decide) (by decide)

/-- C4, claim as stated is false: a pre-existing record whose bucket start
equals `T2` lies outside the half-open window `[T1, T2)`, yet the rebuild
pre-delete (which uses `timestamp <= T2`) removes it. -/
theorem backfill_window_frame_cex :
    oldRec ∈ db4.energy
    ∧ ¬(1800 < (1800 : Nat))
    ∧ oldRec ∉ (backfill_energy_consumption (some (.iso 0)) (some (.iso 1800))
        true 7 db4).db.energy := by
  refine ⟨by decide, by decide, by decide⟩

/-- C3 (amended): a building-level sample (absent floor) and a
floor-bearing sample of the same building are never grouped together by
the backfill, provided the floor id is not the literal string `'null'`,
not empty, and free of the `'_'` separator; likewise a space-absent and a
space-bearing sample of the same building and floor, provided the space
id is not `'null'` and not empty.  The sentinel is *not* distinct from
every legal id: the legal floor id `'null'` (and the empty string)
collides with it, as does a floor id containing the separator. -/
theorem location_separation (now : Nat) (r₁ r₂ : Row) :
    (∀ f : Str, r₁.building_id = r₂.building_id → r₁.floor_id = none →
       r₂.floor_id = some f → f ≠ nullStr → f ≠ [] → und ∉ f →
       rowKey now r₁ ≠ rowKey now r₂)
    ∧ (∀ g : Str, r₁.building_id = r₂.building_id → r₁.floor_id = r₂.floor_id →
       r₁.space_id = none → r₂.space_id = some g → g ≠ nullStr → g ≠ [] →
       rowKey now r₁ ≠ rowKey now r₂) := by
  constructor
  · intro f hb hf1 hf2 hnull hemp hund hcontra
    have h1 : (rowKey now r₁).1 = (rowKey now r₂).1 := by rw [hcontra]
    unfold rowKey at h1
    rw [hb, hf1, hf2] at h1
    exact locKey_floor_separation r₂.building_id f r₁.space_id r₂.space_id
      hnull hemp hund h1
  · intro g hb hf hs1 hs2 hnull hemp hcontra
    have h1 : (rowKey now r₁).1 = (rowKey now r₂).1 := by rw [hcontra]
    unfold rowKey at h1
    rw [hb, hf, hs1, hs2] at h1
    exact locKey_space_separation r₂.building_id r₂.floor_id g hnull hemp h1

/-- C3 witness: a building-level row and a floor-`"F1"` row of the same
building, and a space-less and a space-`"S1"` row, get distinct grouping
keys. -/
theorem location_separation_witness :
    (['F', '1'] : Str) ≠ nullStr
    ∧ rowKey 2 rC3a ≠ rowKey 2 rC3b
    ∧ rowKey 2 rC3a ≠ rowKey 2 rC3c := by
  refine ⟨by decide, ?_, ?_⟩
  · exact (location_separation 2 rC3a rC3b).1 ['F', '1'] (by decide) (by decide)
      (by decide) (by decide) (by decide) (by decide)
  · exact (location_separation 2 rC3a rC3c).2 ['S', '1'] (by decide) (by decide)
      (by decide) (by decide) (by decide) (by decide)

/-- C3, claim as stated is false: the sentinel `'null'` is not distinct
from every legal floor id — a floor whose id is the literal string
`'null'` composes the very same location key as an absent floor, and the
backfill merges a building-level sample with a floor-`'null'` sample of
the same building and bucket into one group of count 2. -/
theorem location_separation_cex :
    locKey bS (some nullStr) none = locKey bS none none
    ∧ bKeys (bucketsOf db3 none none 0) = [(locKey bS none none, 0)]
    ∧ (∀ g ∈ bucketsOf db3 none none 0, g.count = 2) := by
  refine ⟨by decide, by decide, by decide⟩

/-- C6: every accumulated `(LocationKey, bucket)` group is stored as a
record whose `total_watts` is the sum of the contributing watt values
divided by their count, with `total_kwh = (total_watts / 1000) * 0.5`. -/
theorem backfill_averaging (db : DB) (startT endT : Option TStr)
    (rebuild : Bool) (now : Nat) (g : BGroup)
    (hg : g ∈ bucketsOf db startT endT now) :
    groupRec now g ∈ (backfill_energy_consumption startT endT rebuild
        now db).db.energy
    ∧ (groupRec now g).total_watts
        = sumW now (eligibleRows db startT endT) g.key
          / (cntW now (eligibleRows db startT endT) g.key : ℚ)
    ∧ (groupRec now g).total_kwh
        = (groupRec now g).total_watts / 1000 * (1 / 2) := by
  have hne := bucketsOf_mem_ne_nil db startT endT now g hg
  have hinv := buckets_invariant now (eligibleRows db startT endT)
  obtain ⟨h1, h2, h3⟩ := hinv.1 g hg
  have havg : (groupRec now g).total_watts = qdivNat g.sum_watts g.count := by
    show (if 0 < g.count then qdivNat g.sum_watts g.count else 0)
      = qdivNat g.sum_watts g.count
    rw [if_pos h3]
  refine ⟨?_, ?_, ?_⟩
  · have hnodup : ((backfillRecs db startT endT now).map ERec.id).Nodup :=
      groupRec_ids_nodup now (bucketsOf db startT endT now) hinv.2.2
    cases rebuild with
    | false =>
        rw [backfill_norebuild_eq _ _ _ _ hne]
        show groupRec now g ∈ upsertAll (backfillRecs db startT endT now) db.energy
        rw [upsertAll_eq _ _ hnodup]
        exact List.mem_append_right _ (List.mem_map_of_mem (groupRec now) hg)
    | true =>
        rw [backfill_rebuild_eq _ _ _ _ hne]
        show groupRec now g ∈ upsertAll (backfillRecs db startT endT now)
          (deleteWindow startT endT db.energy)
        rw [upsertAll_eq _ _ hnodup]
        exact List.mem_append_right _ (List.mem_map_of_mem (groupRec now) hg)
  · rw [havg, qdivNat_eq, h1, h2]
  · rw [havg]
    show qdivNat (qdivNat (if 0 < g.count then qdivNat g.sum_watts g.count else 0)
        1000) 2 = qdivNat g.sum_watts g.count / 1000 * (1 / 2)
    rw [if_pos h3, qdivNat_eq, qdivNat_eq, div_eq_mul_one_div]
    norm_num

/-- C6 witness: the three samples `{100, 200, 300}` of `db6` accumulate
into one group whose stored record has `avg_watts = 200` and
`total_kwh = 1/10`. -/
theorem backfill_averaging_witness :
    g6 ∈ bucketsOf db6 none none 5
    ∧ (groupRec 5 g6 ∈ (backfill_energy_consumption none none false
          5 db6).db.energy
       ∧ (groupRec 5 g6).total_watts
           = sumW 5 (eligibleRows db6 none none) g6.key
             / (cntW 5 (eligibleRows db6 none none) g6.key : ℚ)
       ∧ (groupRec 5 g6).total_kwh
           = (groupRec 5 g6).total_watts / 1000 * (1 / 2))
    ∧ (groupRec 5 g6).total_watts = 200
    ∧ (groupRec 5 g6).total_kwh = mkRat 1 10 := by
  refine ⟨by decide, ?_, by decide, by decide⟩
  exact backfill_averaging db6 none none false 5 g6 (by decide)

/-- C8: an eligible sample whose timestamp string is unparseable is not
dropped and does not fail the call: it is grouped under the bucket derived
from the current time, and its group accumulates the full contributed
sum with a positive count. -/
theorem backfill_bad_timestamp (db : DB) (now : Nat) (r : Row) (tag : Nat)
    (hr : r ∈ eligibleRows db none none)
    (hbad : r.timestamp = TStr.bad tag)
    (hw : r.watt.isSome = true) :
    (rowKey now r).2 = bucket30 now
    ∧ ∃ g ∈ bucketsOf db none none now, g.key = rowKey now r
        ∧ g.sum_watts = sumW now (eligibleRows db none none) (rowKey now r)
        ∧ 0 < g.count := by
  have hinv := buckets_invariant now (eligibleRows db none none)
  constructor
  · unfold rowKey
    rw [hbad]
    rfl
  · have hself : rowMatch now (rowKey now r) r = true := by
      unfold rowMatch
      rw [hw]
      simp
    have hpos : 0 < cntW now (eligibleRows db none none) (rowKey now r) := by
      unfold cntW
      refine List.length_pos.mpr fun hnil => ?_
      have hmem := List.mem_filter.mpr ⟨hr, hself⟩
      rw [hnil] at hmem
      exact List.not_mem_nil r hmem
    have hkmem : rowKey now r ∈ bKeys (bucketsOf db none none now) := by
      by_contra hk
      have := hinv.2.1 _ hk
      omega
    obtain ⟨g, hg, hgk⟩ := List.mem_map.mp hkmem
    exact ⟨g, hg, hgk, by rw [(hinv.1 g hg).1, hgk], (hinv.1 g hg).2.2⟩

/-- C8 witness: the unparseable-timestamp sample of `db8` is grouped under
the bucket of the clock reading 11 with its 100 W contribution. -/
theorem backfill_bad_timestamp_witness :
    r8 ∈ eligibleRows db8 none none
    ∧ ((rowKey 11 r8).2 = bucket30 11
       ∧ ∃ g ∈ bucketsOf db8 none none 11, g.key = rowKey 11 r8
           ∧ g.sum_watts = sumW 11 (eligibleRows db8 none none) (rowKey 11 r8)
           ∧ 0 < g.count) :=
  ⟨by decide, backfill_bad_timestamp db8 11 r8 3 (by decide) (by decide)
    (by decide)⟩

/-- C2 (amended): each run of the incremental entry point recomputes one
record per `(LocationKey, raw unbucketed timestamp)` pair — not one per
LocationKey — whose `total_watts` is the *sum* (not an average) of the
watt values sharing that location and exact timestamp, with
`total_kwh = total_watts / 1000`; the batch ids are pairwise distinct, the
raw timestamp is stored as the row timestamp, and the store is updated by
upsert alone: rows are kept or replaced by id, never deleted. -/
theorem calc_sum_per_timestamp (db : DB) (now : Nat) :
    (calculate_and_store_energy_consumption now db).2.energy
      = db.energy.filter (fun r => decide (r.id ∉ (calcRecs db now).map ERec.id))
        ++ calcRecs db now
    ∧ ((calcRecs db now).map ERec.id).Nodup
    ∧ ∀ rec ∈ calcRecs db now,
        rec.total_watts = cSumW (eligibleRows db none none) rec.id
        ∧ rec.total_kwh = rec.total_watts / 1000
        ∧ rec.timestamp = rec.id.2 := by
  have hinv := calc_invariant (eligibleRows db none none)
  have hnodup : ((calcRecs db now).map ERec.id).Nodup := by
    rw [calcRec_ids]
    exact hinv.2.2
  refine ⟨?_, hnodup, ?_⟩
  · by_cases h : eligibleRows db none none = []
    · unfold calculate_and_store_energy_consumption
      rw [if_pos h]
      have hrecs : calcRecs db now = [] := by
        unfold calcRecs calcBuckets
        rw [h]
        rfl
      rw [hrecs, List.append_nil]
      exact (filter_eq_self_of_mem _ _ fun a _ => by simp).symm
    · unfold calculate_and_store_energy_consumption
      rw [if_neg h]
      exact upsertAll_eq _ _ hnodup
  · intro rec hrec
    obtain ⟨g, hg, hdef⟩ := List.mem_map.mp hrec
    subst hdef
    refine ⟨hinv.1 g hg, ?_, rfl⟩
    show qdivNat g.total_watts 1000 = g.total_watts / 1000
    rw [qdivNat_eq]
    norm_num

/-- C2 witness: on `db2` the characterisation instantiates, the run
writes two records, and the record of the doubly-sampled instant carries
the sum 400. -/
theorem calc_sum_per_timestamp_witness :
    ((calculate_and_store_energy_consumption 9 db2).2.energy
        = db2.energy.filter
            (fun r => decide (r.id ∉ (calcRecs db2 9).map ERec.id))
          ++ calcRecs db2 9
      ∧ ((calcRecs db2 9).map ERec.id).Nodup
      ∧ ∀ rec ∈ calcRecs db2 9,
          rec.total_watts = cSumW (eligibleRows db2 none none) rec.id
          ∧ rec.total_kwh = rec.total_watts / 1000
          ∧ rec.timestamp = rec.id.2)
    ∧ (calculate_and_store_energy_consumption 9 db2).2.energy.length = 2
    ∧ (∃ rec ∈ calcRecs db2 9, rec.total_watts = 400) :=
  ⟨calc_sum_per_timestamp db2 9, by decide, by decide⟩

/-- C2, claim as stated is false: on `db2` — one single LocationKey — the
incremental run stores *two* records (one per raw timestamp), and the
record of the instant sampled by two points carries the sum 400, not a
single average across the location's samples (any average of values from
`{100, 300, 50}` is at most 300). -/
theorem calc_sum_per_timestamp_cex :
    (calculate_and_store_energy_consumption 9 db2).2.energy.length = 2
    ∧ (∀ rec ∈ (calculate_and_store_energy_consumption 9 db2).2.energy,
        rec.building_id = bS ∧ rec.floor_id = none ∧ rec.space_id = none)
    ∧ (∃ rec ∈ (calculate_and_store_energy_consumption 9 db2).2.energy,
        rec.total_watts = 400) := by
  refine ⟨by decide, by decide, by decide⟩

/-- C7: the rebuild's window-scoped delete is committed on its own before
the batch upsert is committed — the commit trace of a rebuild over `db4`
has two entries and its first committed state is the store with the
window's old records already removed and none of the new records present
(here: empty), while only the second commit holds the recomputed rows. -/
theorem backfill_commit_split :
    (backfill_energy_consumption (some (.iso 0)) (some (.iso 1800))
        true 7 db4).commits.length = 2
    ∧ (backfill_energy_consumption (some (.iso 0)) (some (.iso 1800))
        true 7 db4).commits.head? = some []
    ∧ oldRec ∈ db4.energy
    ∧ (backfill_energy_consumption (some (.iso 0)) (some (.iso 1800))
        true 7 db4).db.energy ≠ [] := by
  refine ⟨by decide, by decide, by decide, by decide⟩
